import Mathlib

/-!
Verification of the satayun-auto PDF layout engine.

The two page-generation modules (`src/pdf_generator.py`, `src/pdf_generator_v2.py`)
are embedded shallowly: Python strings become `List Char`, the float geometry of
reportlab becomes exact rationals (`ℚ`, with `mm = 360/127` points, the exact
value of reportlab's `mm = 72/25.4`), font string-width measurement becomes an
abstract function `List Char → ℚ` supplied as a parameter, and the canvas becomes
an event trace: one event per drawing call, tagged with the call site, the page
number, and the layout-cursor position where applicable.
-/

set_option maxRecDepth 20000

attribute [local semireducible] Rat.add Rat.sub Rat.mul Rat.inv

/-- Python strings are sequences of code points. -/
abbrev LC := List Char

/-- The code points Python's `str.isspace()` holds whitespace — the exact set
`str.strip()` removes (CPython, Unicode 14.0): ASCII whitespace, the four
information separators, NEL, NBSP, the Ogham space mark, the en/em-family
spaces, the line and paragraph separators, the narrow and mathematical spaces
and the ideographic space. -/
def pySpaceCodes : List ℕ :=
  [0x09, 0x0a, 0x0b, 0x0c, 0x0d, 0x1c, 0x1d, 0x1e, 0x1f, 0x20,
   0x85, 0xa0, 0x1680,
   0x2000, 0x2001, 0x2002, 0x2003, 0x2004, 0x2005, 0x2006, 0x2007, 0x2008,
   0x2009, 0x200a, 0x2028, 0x2029, 0x202f, 0x205f, 0x3000]

/-- The whitespace test of Python's `str.strip()`. -/
def isPySpace (c : Char) : Bool := pySpaceCodes.contains c.toNat

/-- Python `s.strip()`. -/
def pyStrip (s : LC) : LC :=
  ((s.dropWhile isPySpace).reverse.dropWhile isPySpace).reverse

/-- Python `text.split('\x5cn')`: splitting on the newline separator, keeping
empty pieces (`"".split` gives `[""]`, a trailing newline gives a final `""`). -/
def splitNl : LC → List LC
  | [] => [[]]
  | c :: cs =>
    if c = '\n' then [] :: splitNl cs
    else
      match splitNl cs with
      | [] => [[c]]
      | r :: rs => (c :: r) :: rs

/-- The greedy accumulation loop of `wrap_text` (pdf_generator_v2.py lines
130-141): `line` is the accumulator `line`, the second argument the characters
of the paragraph still to be consumed.  `sw` stands for
`c.stringWidth(·, font_name, font_size)`, an arbitrary exact width measure. -/
def wrapLoop (sw : LC → ℚ) (maxW : ℚ) : LC → LC → List LC
  | line, [] => if line.isEmpty then [] else [line]
  | line, ch :: rest =>
    if sw (line ++ [ch]) ≤ maxW then
      wrapLoop sw maxW (line ++ [ch]) rest
    else
      (if line.isEmpty then [] else [line]) ++ wrapLoop sw maxW [ch] rest

/-- Function `wrap_text(text, font_name, font_size, max_width, c)` of pdf_generator_v2.py
(lines 121-143): split `text` on newlines; a paragraph whose `strip()` is empty
contributes a single empty line; any other paragraph goes through the greedy
character loop. -/
def wrap_text (sw : LC → ℚ) (maxW : ℚ) (text : LC) : List LC :=
  (splitNl text).flatMap fun para =>
    if (pyStrip para).isEmpty then [[]] else wrapLoop sw maxW [] para

theorem wrapLoop_flatten (sw : LC → ℚ) (maxW : ℚ) :
    ∀ (rest line : LC), (wrapLoop sw maxW line rest).flatten = line ++ rest := by
  intro rest
  induction rest with
  | nil =>
    intro line
    by_cases h : line.isEmpty
    · simp [wrapLoop, h, List.isEmpty_iff.mp h]
    · simp [wrapLoop, h]
  | cons ch rest ih =>
    intro line
    by_cases h : sw (line ++ [ch]) ≤ maxW
    · simp only [wrapLoop, if_pos h, ih]
      simp
    · simp only [wrapLoop, if_neg h, List.flatten_append, ih]
      by_cases hl : line.isEmpty
      · simp [List.isEmpty_iff.mp hl]
      · simp [hl]

theorem wrapLoop_width (sw : LC → ℚ) (maxW : ℚ) :
    ∀ (rest line : LC), (line = [] ∨ sw line ≤ maxW ∨ line.length = 1) →
      ∀ l ∈ wrapLoop sw maxW line rest, sw l ≤ maxW ∨ l.length = 1 := by
  intro rest
  induction rest with
  | nil =>
    intro line hline l hl
    by_cases h : line.isEmpty
    · simp [wrapLoop, h] at hl
    · simp [wrapLoop, h] at hl
      subst hl
      rcases hline with h0 | h1 | h2
      · subst h0; simp at h
      · exact Or.inl h1
      · exact Or.inr h2
  | cons ch rest ih =>
    intro line hline l hl
    by_cases h : sw (line ++ [ch]) ≤ maxW
    · rw [wrapLoop, if_pos h] at hl
      exact ih (line ++ [ch]) (Or.inr (Or.inl h)) l hl
    · rw [wrapLoop, if_neg h] at hl
      rcases List.mem_append.mp hl with hmem | hmem
      · by_cases hl2 : line.isEmpty
        · simp [hl2] at hmem
        · simp [hl2] at hmem
          subst hmem
          rcases hline with h0 | h1 | h2
          · subst h0; simp at hl2
          · exact Or.inl h1
          · exact Or.inr h2
      · exact ih [ch] (Or.inr (Or.inr rfl)) l hmem

theorem splitNl_no_newline {s : LC} (h : '\n' ∉ s) : splitNl s = [s] := by
  induction s with
  | nil => rfl
  | cons c cs ih =>
    have hc : ¬ c = '\n' := fun hc => h (hc ▸ List.mem_cons_self c cs)
    have hcs : '\n' ∉ cs := fun hm => h (List.mem_cons_of_mem c hm)
    simp only [splitNl, if_neg hc, ih hcs]

theorem pyStrip_ne_nil {s : LC} (h : ∃ c ∈ s, isPySpace c = false) :
    (pyStrip s).isEmpty = false := by
  rcases h with ⟨c, hc, hns⟩
  by_contra hne
  have hnil : pyStrip s = [] := by
    cases he : (pyStrip s).isEmpty
    · exact absurd he hne
    · exact List.isEmpty_iff.mp he
  have h2 : (s.dropWhile isPySpace).reverse.dropWhile isPySpace = [] := by
    have := congrArg List.reverse hnil
    simpa [pyStrip] using this
  have hall2 : ∀ x ∈ (s.dropWhile isPySpace).reverse, isPySpace x = true :=
    List.dropWhile_eq_nil_iff.mp h2
  have hsplit : c ∈ s.takeWhile isPySpace ∨ c ∈ s.dropWhile isPySpace := by
    rw [← List.mem_append, List.takeWhile_append_dropWhile]
    exact hc
  rcases hsplit with hm | hm
  · exact absurd (List.mem_takeWhile_imp hm) (by simp [hns])
  · exact absurd (hall2 c (List.mem_reverse.mpr hm)) (by simp [hns])

/-- C1: the claim as stated is false: `wrap_text` splits on newlines and drops
the separators, and a whitespace-only paragraph is replaced by an empty line,
so concatenating the produced lines does not reconstruct `"a\x5cnb"` (nor the
one-space string). -/
theorem C1_counterexample :
    (wrap_text (fun s => (s.length : ℚ)) 10 ('a' :: '\n' :: 'b' :: [])).flatten ≠
        ('a' :: '\n' :: 'b' :: []) ∧
    (wrap_text (fun s => (s.length : ℚ)) 10 [' ']).flatten ≠ [' '] := by
  constructor <;> decide

/-- C1 (amended): for every width measure `sw`, width bound `w` and input
string `s` that contains no newline and at least one non-whitespace character,
concatenating the lines produced by `wrap_text` reconstructs `s` exactly, and
every produced line either measures at most `w` or is a single character (so a
character wider than `w` sits on a line of its own). -/
theorem C1_wrap_text_reconstructs (sw : LC → ℚ) (maxW : ℚ) (s : LC)
    (hnl : '\n' ∉ s) (hch : ∃ c ∈ s, isPySpace c = false) :
    (wrap_text sw maxW s).flatten = s ∧
      ∀ l ∈ wrap_text sw maxW s, sw l ≤ maxW ∨ l.length = 1 := by
  have hs : splitNl s = [s] := splitNl_no_newline hnl
  have hne : (pyStrip s).isEmpty = false := pyStrip_ne_nil hch
  have hw : wrap_text sw maxW s = wrapLoop sw maxW [] s := by
    rw [List.isEmpty_eq_false] at hne
    simp [wrap_text, hs, hne]
  constructor
  · rw [hw, wrapLoop_flatten]
    rfl
  · intro l hl
    rw [hw] at hl
    exact wrapLoop_width sw maxW s [] (Or.inl rfl) l hl

/-- C1 witness: a concrete instance of the amended wrapping theorem at width 2
with per-character width 1 on the string "abc". -/
theorem C1_wrap_text_witness :
    ('\n' ∉ "abc".data) ∧ (∃ c ∈ "abc".data, isPySpace c = false) ∧
    ((wrap_text (fun s => (s.length : ℚ)) 2 "abc".data).flatten = "abc".data ∧
      ∀ l ∈ wrap_text (fun s => (s.length : ℚ)) 2 "abc".data,
        (fun s => ((s.length : ℚ))) l ≤ 2 ∨ l.length = 1) :=
  ⟨by decide, by decide,
    C1_wrap_text_reconstructs (fun s => (s.length : ℚ)) 2 "abc".data
      (by decide) (by decide)⟩

/-- The opening brace character, written by code point. -/
def lbrace : Char := Char.ofNat 123

/-- The closing brace character, written by code point. -/
def rbrace : Char := Char.ofNat 125

/-- The literal opener of an image marker: two opening braces, then `IMG:`. -/
def imgOpen : LC := [lbrace, lbrace, 'I', 'M', 'G', ':']

/-- One attempt of the pattern `IMG_TAG_PATTERN` at the start of `s`: the
six-character opener, a maximal nonempty run of non-closing-brace characters
(the greedy group `[^...]+` of the regex), then the two closing braces. -/
def imgTagHere (s : LC) : Option LC :=
  if imgOpen.isPrefixOf s then
    let after := s.drop 6
    let run := after.takeWhile (fun c => c != rbrace)
    if run.isEmpty then none
    else if [rbrace, rbrace].isPrefixOf (after.drop run.length) then some run
    else none
  else none

/-- Search `IMG_TAG_PATTERN.search(text)` returning `group(1)`: the leftmost position
where the marker pattern matches wins (both generator modules compile the same
pattern). -/
def searchImgTag : LC → Option LC
  | [] => none
  | c :: cs =>
    match imgTagHere (c :: cs) with
    | some t => some t
    | none => searchImgTag cs

/-- The index of the last occurrence of `c` in `s`, or `none`
(Python `str.rfind` for a single character). -/
def rfindIdx (c : Char) (s : LC) : Option ℕ :=
  match s.reverse.findIdx? (· == c) with
  | none => none
  | some i => some (s.length - 1 - i)

/-- Python `os.path.splitext(p)[0]` (the posixpath algorithm): the extension starts at
the last dot, unless that dot is inside the directory part or every character
of the basename before it is itself a dot (leading dots mark hidden files, not
extensions). -/
def splitextBase (p : LC) : LC :=
  match rfindIdx '.' p with
  | none => p
  | some di =>
    let fnStart : ℕ :=
      match rfindIdx '/' p with
      | none => 0
      | some si => si + 1
    if di < fnStart then p
    else if ((p.drop fnStart).take (di - fnStart)).any (fun c => c != '.') then p.take di
    else p

/-- The per-asset matching disjunction of `find_image_by_tag`
(pdf_generator.py lines 170-173): exact name, exact extension-stripped name,
tag a substring of the name, or extension-stripped name ending in the tag. -/
def matchesTag (tag nm : LC) : Bool :=
  tag == nm || tag == splitextBase nm || decide (tag <:+: nm) ||
    tag.isSuffixOf (splitextBase nm)

/-- Function `find_image_by_tag(text, images_dict)` (pdf_generator.py lines 150-176):
search `text` for the marker; on a match, strip the captured tag and scan the
pool in dict insertion order, returning the first asset whose name satisfies
the matching disjunction.  The Option triple mirrors the Python return
values `(None, None, None)`, `(tag, None, None)` and `(tag, data, name)`. -/
def find_image_by_tag {α : Type} (text : LC) (pool : List (LC × α)) :
    Option LC × Option α × Option LC :=
  match searchImgTag text with
  | none => (none, none, none)
  | some raw =>
    let tag := pyStrip raw
    match pool.find? (fun q => matchesTag tag q.1) with
    | none => (some tag, none, none)
    | some q => (some tag, some q.2, some q.1)

/-- C2: the claim as stated is false: the four matching rules are not global
priorities over the pool; they are OR-ed per asset and the first asset in pool
order that satisfies any rule wins.  With the pool listing "01_table.png"
before "table.png", the tag "table" resolves to "01_table.png" (a substring
match) rather than to "table.png" (the extension-stripped exact match). -/
theorem C2_counterexample :
    (find_image_by_tag ("\x7b\x7bIMG:table\x7d\x7d".data)
        [("01_table.png".data, (0 : ℕ)), ("table.png".data, 1)]).2.2 =
      some ("01_table.png".data) ∧
    "01_table.png".data ≠ "table.png".data := by
  constructor <;> decide

/-- C2 (amended): resolution scans the pool in dict insertion order and
returns the first asset whose name satisfies the OR of the four rules (exact,
exact extension-stripped, substring, extension-stripped ends with tag); every
asset earlier in the pool satisfies none of the rules.  Which of
"01_table.png" and "table.png" wins for the tag "table" therefore depends on
pool order, not on a priority among the rules. -/
theorem C2_first_match {α : Type} (text : LC) (pool : List (LC × α)) (tag : LC)
    (d : α) (nm : LC)
    (h : find_image_by_tag text pool = (some tag, some d, some nm)) :
    matchesTag tag nm = true ∧
      ∃ pre post, pool = pre ++ (nm, d) :: post ∧
        ∀ q ∈ pre, matchesTag tag q.1 = false := by
  unfold find_image_by_tag at h
  cases hs : searchImgTag text with
  | none => rw [hs] at h; simp at h
  | some raw =>
    rw [hs] at h
    simp only at h
    cases hf : pool.find? (fun q => matchesTag (pyStrip raw) q.1) with
    | none => rw [hf] at h; simp at h
    | some q =>
      rw [hf] at h
      simp only [Prod.mk.injEq, Option.some.injEq] at h
      obtain ⟨h1, h2, h3⟩ := h
      subst h1
      rcases List.find?_eq_some.mp hf with ⟨hq, pre, post, hsplit, hpre⟩
      refine ⟨by rw [← h3]; exact hq, pre, post, ?_, ?_⟩
      · rw [hsplit]
        congr 1
        rw [← h3, ← h2]
      · intro r hr
        simpa using hpre r hr

/-- C2 witness: the concrete two-asset pool, in the order that exposes the
first-match behaviour, instantiating the amended resolution theorem. -/
theorem C2_first_match_witness :
    matchesTag "table".data "01_table.png".data = true ∧
      ∃ pre post,
        [("01_table.png".data, (0 : ℕ)), ("table.png".data, 1)] =
          pre ++ ("01_table.png".data, 0) :: post ∧
        ∀ q ∈ pre, matchesTag "table".data q.1 = false :=
  C2_first_match ("\x7b\x7bIMG:table\x7d\x7d".data)
    [("01_table.png".data, (0 : ℕ)), ("table.png".data, 1)]
    "table".data 0 "01_table.png".data (by decide)

/-- C10: `find_image_by_tag` is total with the claimed output shapes: with no
marker in the text it returns `(None, None, None)`; with a marker and no
matching asset it returns `(tag, None, None)`; with a matching asset it
returns `(tag, data, name)` for an asset of the pool whose name satisfies the
matching disjunction.  It takes no used-image state and, being a pure
function of its two arguments, mutates neither the pool nor any
deduplication state. -/
theorem C10_find_image_by_tag_total {α : Type} (text : LC) (pool : List (LC × α)) :
    (searchImgTag text = none ∧ find_image_by_tag text pool = (none, none, none)) ∨
    (∃ raw, searchImgTag text = some raw ∧
      (((∀ q ∈ pool, matchesTag (pyStrip raw) q.1 = false) ∧
          find_image_by_tag text pool = (some (pyStrip raw), none, none)) ∨
        (∃ nm d, (nm, d) ∈ pool ∧ matchesTag (pyStrip raw) nm = true ∧
          find_image_by_tag text pool = (some (pyStrip raw), some d, some nm)))) := by
  cases hs : searchImgTag text with
  | none =>
    exact Or.inl ⟨rfl, by unfold find_image_by_tag; rw [hs]⟩
  | some raw =>
    refine Or.inr ⟨raw, rfl, ?_⟩
    cases hf : pool.find? (fun q => matchesTag (pyStrip raw) q.1) with
    | none =>
      refine Or.inl ⟨?_, by unfold find_image_by_tag; rw [hs]; simp only; rw [hf]⟩
      intro q hq
      have := List.find?_eq_none.mp hf q hq
      simpa using this
    | some q =>
      refine Or.inr ⟨q.1, q.2, List.mem_of_find?_eq_some hf, ?_, ?_⟩
      · simpa using List.find?_some hf
      · unfold find_image_by_tag; rw [hs]; simp only; rw [hf]

/-- reportlab's `mm` in points, exactly: 72/25.4. -/
def mmPt : ℚ := 360 / 127

/-- A4 page width in points (210 mm). -/
def PAGE_WIDTH : ℚ := 210 * mmPt

/-- A4 page height in points (297 mm). -/
def PAGE_HEIGHT : ℚ := 297 * mmPt

/-- Top margin, 25 mm (pdf_generator_v2.py line 27). -/
def MARGIN_TOP : ℚ := 25 * mmPt

/-- Bottom margin, 25 mm. -/
def MARGIN_BOTTOM : ℚ := 25 * mmPt

/-- Left margin, 25 mm. -/
def MARGIN_LEFT : ℚ := 25 * mmPt

/-- Right margin, 25 mm. -/
def MARGIN_RIGHT : ℚ := 25 * mmPt

/-- Body font size (line 35). -/
def BODY_SIZE : ℚ := 17

/-- Subtitle font size (line 34). -/
def SUBTITLE_SIZE : ℚ := 25

/-- Body line height: 120% of the body size (lines 38-39; the float 1.2 is the
decimal 6/5). -/
def BODY_LINE_HEIGHT : ℚ := BODY_SIZE * (6 / 5)

/-- Subtitle line height: 120% of the subtitle size (line 40). -/
def SUBTITLE_LINE_HEIGHT : ℚ := SUBTITLE_SIZE * (6 / 5)

/-- Width of the text area (line 43). -/
def TEXT_WIDTH : ℚ := PAGE_WIDTH - MARGIN_LEFT - MARGIN_RIGHT

/-- One drawing event of `create_full_pdf`, tagged with its call site, the page
it lands on, and (for cursor-driven placements) the cursor height `yAfter`
immediately after the placement. -/
inductive Ev where
  | coverTitle (page : ℕ) (text : LC)
  | coverName (page : ℕ) (text : LC)
  | coverInfo (page : ℕ) (text : LC)
  | coverDate (page : ℕ) (text : LC)
  | tocHeader (page : ℕ) (y : ℚ)
  | tocEntry (page : ℕ) (text : LC) (y : ℚ)
  | titleMain (page : ℕ) (text : LC)
  | titleSub (page : ℕ) (text : LC)
  | spacing (page : ℕ) (yAfter : ℚ)
  | img (page : ℕ) (nm : LC) (x y w h yAfter : ℚ)
  | subLine (page : ℕ) (text : LC) (yAfter : ℚ)
  | body (page : ℕ) (text : LC) (yAfter : ℚ)
deriving DecidableEq

/-- The mutable assembly state of `create_full_pdf`: current page number,
vertical cursor, and the set of already placed images (`used_images`; the
source stores joined paths, which determine the file names one-to-one since
the directory is fixed for the whole run). -/
structure St where
  page : ℕ
  y : ℚ
  used : List LC
deriving DecidableEq

/-- Function `new_page()` (pdf_generator_v2.py lines 165-174): finalize the current page
with its footer and reset the cursor to the top margin of the next page. -/
def newPage (st : St) : St :=
  { st with page := st.page + 1, y := PAGE_HEIGHT - MARGIN_TOP }

/-- Function `find_image(tag_name, images_dir)` (lines 104-115): the first file of the
directory listing whose name equals the tag, whose extension-stripped name
equals the tag, or that contains the tag as a substring.  A pool entry carries
the pixel size that `Image.open` reports; a missing directory behaves as the
empty pool. -/
def find_image (tag : LC) (pool : List (LC × ℚ × ℚ)) : Option (LC × ℚ × ℚ) :=
  pool.find? fun e => tag == e.1 || tag == splitextBase e.1 || decide (tag <:+: e.1)

/-- The inclusive code-point ranges of the Unicode decimal digits (category
Nd, Unicode 14.0): the character class the Python `re` pattern `\d` matches
on str patterns (CPython's `re` uses exactly this set). -/
def pyDigitRanges : List (ℕ × ℕ) :=
  [(0x30, 0x39), (0x660, 0x669), (0x6f0, 0x6f9), (0x7c0, 0x7c9), (0x966, 0x96f),
   (0x9e6, 0x9ef), (0xa66, 0xa6f), (0xae6, 0xaef), (0xb66, 0xb6f), (0xbe6, 0xbef),
   (0xc66, 0xc6f), (0xce6, 0xcef), (0xd66, 0xd6f), (0xde6, 0xdef), (0xe50, 0xe59),
   (0xed0, 0xed9), (0xf20, 0xf29), (0x1040, 0x1049), (0x1090, 0x1099), (0x17e0, 0x17e9),
   (0x1810, 0x1819), (0x1946, 0x194f), (0x19d0, 0x19d9), (0x1a80, 0x1a89), (0x1a90, 0x1a99),
   (0x1b50, 0x1b59), (0x1bb0, 0x1bb9), (0x1c40, 0x1c49), (0x1c50, 0x1c59), (0xa620, 0xa629),
   (0xa8d0, 0xa8d9), (0xa900, 0xa909), (0xa9d0, 0xa9d9), (0xa9f0, 0xa9f9), (0xaa50, 0xaa59),
   (0xabf0, 0xabf9), (0xff10, 0xff19), (0x104a0, 0x104a9), (0x10d30, 0x10d39), (0x11066, 0x1106f),
   (0x110f0, 0x110f9), (0x11136, 0x1113f), (0x111d0, 0x111d9), (0x112f0, 0x112f9), (0x11450, 0x11459),
   (0x114d0, 0x114d9), (0x11650, 0x11659), (0x116c0, 0x116c9), (0x11730, 0x11739), (0x118e0, 0x118e9),
   (0x11950, 0x11959), (0x11c50, 0x11c59), (0x11d50, 0x11d59), (0x11da0, 0x11da9), (0x16a60, 0x16a69),
   (0x16ac0, 0x16ac9), (0x16b50, 0x16b59), (0x1d7ce, 0x1d7ff), (0x1e140, 0x1e149), (0x1e2f0, 0x1e2f9),
   (0x1e950, 0x1e959), (0x1fbf0, 0x1fbf9)]

/-- The digit test of the regex character class `\d` (Unicode decimal
digits, fullwidth digits included). -/
def isPyDigit (c : Char) : Bool :=
  pyDigitRanges.any fun r => decide (r.1 ≤ c.toNat) && decide (c.toNat ≤ r.2)

/-- The leading `<digits>.` test of `re.match` in pdf_generator_v2.py line
312: a nonempty maximal run of Unicode decimal digits followed by a dot. -/
def startsNumDot (l : LC) : Bool :=
  let ds := l.takeWhile isPyDigit
  !ds.isEmpty && ((l.drop ds.length).take 1 == ['.'])

/-- The subtitle marker glyphs of v2 (line 314). -/
def subtitleMarks : LC := ['▶', '●', '◆', '★', '■']

/-- Subtitle test of the v2 content loop (lines 310-315). -/
def isSubtitleV2 (l : LC) : Bool :=
  startsNumDot l ||
    (match l.head? with
     | some c => subtitleMarks.contains c
     | none => false)

/-- Body-paragraph inner loop (lines 342-348): per wrapped line, break the page
when the cursor has dropped under `MARGIN_BOTTOM + 30`, draw the line, advance
the cursor by one body line height. -/
def drawBodyLines : St → List LC → St × List Ev
  | st, [] => (st, [])
  | st, l :: ls =>
    let st1 := if st.y < MARGIN_BOTTOM + 30 then newPage st else st
    let r := drawBodyLines { st1 with y := st1.y - BODY_LINE_HEIGHT } ls
    (r.1, Ev.body st1.page l (st1.y - BODY_LINE_HEIGHT) :: r.2)

/-- Subtitle inner loop (lines 330-332): draw each wrapped line and advance by
the subtitle line height; no page break happens inside this loop. -/
def drawSubLines (page : ℕ) : ℚ → List LC → ℚ × List Ev
  | y, [] => (y, [])
  | y, l :: ls =>
    let r := drawSubLines page (y - SUBTITLE_LINE_HEIGHT) ls
    (r.1, Ev.subLine page l (y - SUBTITLE_LINE_HEIGHT) :: r.2)

/-- The uniform scale factor of an image placement (lines 281-284): fit within
90% of the text width and 40% of the page height, never upscale. -/
def imgScale (nw nh : ℚ) : ℚ :=
  min ((TEXT_WIDTH * (9 / 10)) / nw) (min ((PAGE_HEIGHT * (2 / 5)) / nh) 1)

/-- The image-placement block of the content loop (lines 276-303): scale the
asset, break the page when the scaled image does not fit above
`MARGIN_BOTTOM + 50`, draw it horizontally centered at the cursor, mark it
used and advance the cursor past it plus two body line heights. -/
def placeImg (st : St) (e : LC × ℚ × ℚ) : St × List Ev :=
  let w := e.2.1 * imgScale e.2.1 e.2.2
  let h := e.2.2 * imgScale e.2.1 e.2.2
  let st1 := if st.y - h < MARGIN_BOTTOM + 50 then newPage st else st
  ({ st1 with y := st1.y - h - BODY_LINE_HEIGHT * 2, used := e.1 :: st1.used },
    [Ev.img st1.page e.1 ((PAGE_WIDTH - w) / 2) (st1.y - h) w h
      (st1.y - h - BODY_LINE_HEIGHT * 2)])

/-- The subtitle block of the content loop (lines 317-334): wrap at subtitle
size, break the page when the whole block does not fit, insert the 15-point
gap, draw the wrapped lines, then the trailing 10-point gap. -/
def placeSubtitle (swS : LC → ℚ) (st : St) (line : LC) : St × List Ev :=
  let wrapped := wrap_text swS TEXT_WIDTH line
  let needed := (wrapped.length : ℚ) * SUBTITLE_LINE_HEIGHT + 20
  let st1 := if st.y - needed < MARGIN_BOTTOM + 30 then newPage st else st
  let r := drawSubLines st1.page (st1.y - 15) wrapped
  ({ st1 with y := r.1 - 10 }, r.2)

/-- One iteration of the content loop of `create_full_pdf` (lines 262-348):
strip the line; an empty result is a half-line spacing directive with no page
break; a line with an image marker resolves and places the image unless the
asset was already used; a subtitle line and a body line wrap and draw.  `swB`
and `swS` are the string-width measures at body and at subtitle size. -/
def procLine (swB swS : LC → ℚ) (pool : List (LC × ℚ × ℚ)) (st : St) (raw : LC) :
    St × List Ev :=
  if (pyStrip raw).isEmpty then
    ({ st with y := st.y - BODY_LINE_HEIGHT / 2 },
      [Ev.spacing st.page (st.y - BODY_LINE_HEIGHT / 2)])
  else
    match searchImgTag (pyStrip raw) with
    | some tag =>
      match find_image tag pool with
      | some e => if st.used.contains e.1 then (st, []) else placeImg st e
      | none => (st, [])
    | none =>
      if isSubtitleV2 (pyStrip raw) then placeSubtitle swS st (pyStrip raw)
      else drawBodyLines st (wrap_text swB TEXT_WIDTH (pyStrip raw))

/-- The line loop over one chapter's content. -/
def procLines (swB swS : LC → ℚ) (pool : List (LC × ℚ × ℚ)) :
    St → List LC → St × List Ev
  | st, [] => (st, [])
  | st, l :: ls =>
    let r1 := procLine swB swS pool st l
    let r2 := procLines swB swS pool r1.1 ls
    (r2.1, r1.2 ++ r2.2)

/-- The fixed chapter-title table (pdf_generator_v2.py lines 212-228);
`dict.get` yields the empty string for any other key. -/
def chapter_titles : ℕ → LC
  | 1 => "일년 운세 리포트의 해석 관점".data
  | 2 => "사주 구조 핵심 요약".data
  | 3 => "일년 전체 운의 큰 흐름".data
  | 4 => "상반기 월별 운의 작동 구조".data
  | 5 => "하반기 월별 운의 변화 포인트".data
  | 6 => "감정·심리 흐름".data
  | 7 => "인간관계 전반의 운 흐름".data
  | 8 => "연애·부부·이성 운".data
  | 9 => "직업·일·커리어 운".data
  | 10 => "재물·수입·지출 운".data
  | 11 => "건강·에너지 흐름".data
  | 12 => "선택이 중요한 시점들".data
  | 13 => "조심해야 할 작용".data
  | 14 => "해 운을 활용하는 전략".data
  | 15 => "이 한 해가 남기는 의미".data
  | _ => []

/-- The chapter-number caption `제{n}장`. -/
def jeChapter (n : ℕ) : LC := "제".data ++ (Nat.repr n).data ++ "장".data

/-- One chapter of the content pass (lines 244-260): a fresh title page
carrying the chapter caption and the fixed title, then a fresh content page
and the line loop over the chapter's raw text. -/
def procChapter (swB swS : LC → ℚ) (pool : List (LC × ℚ × ℚ)) (st : St)
    (c : ℕ × LC) : St × List Ev :=
  let st1 := newPage st
  let st2 := newPage st1
  let r := procLines swB swS pool st2 (splitNl c.2)
  (r.1, Ev.titleMain st1.page (jeChapter c.1) ::
    Ev.titleSub st1.page (chapter_titles c.1) :: r.2)

/-- The chapter loop. -/
def procChapters (swB swS : LC → ℚ) (pool : List (LC × ℚ × ℚ)) :
    St → List (ℕ × LC) → St × List Ev
  | st, [] => (st, [])
  | st, c :: cs =>
    let r1 := procChapter swB swS pool st c
    let r2 := procChapters swB swS pool r1.1 cs
    (r2.1, r1.2 ++ r2.2)

/-- Ordered insertion by chapter number, for `sorted(chapters.keys())`. -/
def insertCh (c : ℕ × LC) : List (ℕ × LC) → List (ℕ × LC)
  | [] => [c]
  | d :: ds => if c.1 ≤ d.1 then c :: d :: ds else d :: insertCh c ds

/-- Python `sorted(chapters.keys())` over the dict items: ascending insertion sort
(keys of a dict are distinct, so ties do not arise). -/
def sortChapters : List (ℕ × LC) → List (ℕ × LC)
  | [] => []
  | c :: cs => insertCh c (sortChapters cs)

/-- The table-of-contents loop (lines 230-237): one entry per chapter number 1
to 15, the cursor advancing 25 points per entry and the page breaking when it
drops under `MARGIN_BOTTOM + 50`. -/
def tocLoop : St → List ℕ → St × List Ev
  | st, [] => (st, [])
  | st, n :: ns =>
    let st1 : St := { st with y := st.y - 25 }
    let st2 := if st1.y < MARGIN_BOTTOM + 50 then newPage st1 else st1
    let r := tocLoop st2 ns
    (r.1, Ev.tocEntry st.page (("제".data ++ (Nat.repr n).data ++ "장. ".data) ++
      chapter_titles n) st.y :: r.2)

/-- Function `create_full_pdf(chapters, images_dir, customer_name, output_path, info)`
(pdf_generator_v2.py lines 149-357) as a drawing-event trace plus the final
page count.  `chapters` is the chapter dict as ordered items, `pool` the
directory listing with pixel sizes, `info` the optional two display strings
of the cover block, and `today` stands for `datetime.now().strftime(...)`,
the one environmental value the cover reads. -/
def create_full_pdf (swB swS : LC → ℚ) (chapters : List (ℕ × LC))
    (pool : List (LC × ℚ × ℚ)) (customer : LC) (info : Option (LC × LC))
    (today : LC) : List Ev × ℕ :=
  let coverEvs : List Ev :=
    [Ev.coverTitle 1 "사주 분석 보고서".data,
     Ev.coverName 1 (customer ++ " 님".data)] ++
    (match info with
     | some i => [Ev.coverInfo 1 ("양력: ".data ++ i.1),
                  Ev.coverInfo 1 ("음력: ".data ++ i.2)]
     | none => []) ++
    [Ev.coverDate 1 ("생성일: ".data ++ today)]
  let st1 : St := { page := 2, y := PAGE_HEIGHT - MARGIN_TOP, used := [] }
  let rt := tocLoop { st1 with y := st1.y - 50 } (List.range' 1 15)
  let rc := procChapters swB swS pool rt.1 (sortChapters chapters)
  (coverEvs ++ (Ev.tocHeader 2 st1.y :: rt.2) ++ rc.2, rc.1.page)

example :
    (create_full_pdf (fun s => (s.length : ℚ)) (fun s => (s.length : ℚ))
      [(1, "제1장 테스트\n본문입니다.".data)] [] "테스터".data none
      "2026년 01월 01일".data).2 = 4 := by decide

/-- Does the trace contain a chapter-title-page subtitle with this text? -/
def hasTitleSubText (t : LC) (evs : List Ev) : Bool :=
  evs.any fun e =>
    match e with
    | Ev.titleSub _ s => s == t
    | _ => false

/-- C4: the claim as stated is false: in scenario A the chapter title page
does not show "테스트" as subtitle; the subtitle drawn on the title page is
the hardcoded chapter-1 heading from `chapter_titles`, and the raw first line
is rendered as an ordinary body paragraph instead. -/
theorem C4_counterexample :
    hasTitleSubText "테스트".data
        (create_full_pdf (fun s => (s.length : ℚ)) (fun s => (s.length : ℚ))
          [(1, "제1장 테스트\n본문입니다.".data)] [] "테스터".data none
          "2026년 01월 01일".data).1 = false ∧
    Ev.titleSub 3 (chapter_titles 1) ∈
        (create_full_pdf (fun s => (s.length : ℚ)) (fun s => (s.length : ℚ))
          [(1, "제1장 테스트\n본문입니다.".data)] [] "테스터".data none
          "2026년 01월 01일".data).1 ∧
    chapter_titles 1 ≠ "테스트".data := by
  refine ⟨by decide, by decide, by decide⟩

/-- C4 (amended): scenario A produces exactly 4 pages: cover (page 1), a
table of contents listing chapter 1 (page 2), a chapter title page showing
"제1장" with the hardcoded chapter-1 title as subtitle (page 3), and one
content page (page 4) carrying the wrapped lines "제1장 테스트" (classified
as body text, not as a title) and "본문입니다.". -/
theorem C4_scenarioA_assembly :
    (create_full_pdf (fun s => (s.length : ℚ)) (fun s => (s.length : ℚ))
        [(1, "제1장 테스트\n본문입니다.".data)] [] "테스터".data none
        "2026년 01월 01일".data).2 = 4 ∧
    Ev.coverTitle 1 "사주 분석 보고서".data ∈
      (create_full_pdf (fun s => (s.length : ℚ)) (fun s => (s.length : ℚ))
        [(1, "제1장 테스트\n본문입니다.".data)] [] "테스터".data none
        "2026년 01월 01일".data).1 ∧
    Ev.tocEntry 2 ("제1장. ".data ++ chapter_titles 1) (91570 / 127) ∈
      (create_full_pdf (fun s => (s.length : ℚ)) (fun s => (s.length : ℚ))
        [(1, "제1장 테스트\n본문입니다.".data)] [] "테스터".data none
        "2026년 01월 01일".data).1 ∧
    Ev.titleMain 3 "제1장".data ∈
      (create_full_pdf (fun s => (s.length : ℚ)) (fun s => (s.length : ℚ))
        [(1, "제1장 테스트\n본문입니다.".data)] [] "테스터".data none
        "2026년 01월 01일".data).1 ∧
    Ev.titleSub 3 (chapter_titles 1) ∈
      (create_full_pdf (fun s => (s.length : ℚ)) (fun s => (s.length : ℚ))
        [(1, "제1장 테스트\n본문입니다.".data)] [] "테스터".data none
        "2026년 01월 01일".data).1 ∧
    Ev.body 4 "제1장 테스트".data (97920 / 127 - 102 / 5) ∈
      (create_full_pdf (fun s => (s.length : ℚ)) (fun s => (s.length : ℚ))
        [(1, "제1장 테스트\n본문입니다.".data)] [] "테스터".data none
        "2026년 01월 01일".data).1 ∧
    Ev.body 4 "본문입니다.".data (97920 / 127 - 204 / 5) ∈
      (create_full_pdf (fun s => (s.length : ℚ)) (fun s => (s.length : ℚ))
        [(1, "제1장 테스트\n본문입니다.".data)] [] "테스터".data none
        "2026년 01월 01일".data).1 := by
  refine ⟨by decide, by decide, by decide, by decide, by decide, by decide, by decide⟩

/-- Does the trace contain a spacing directive that left the cursor under the
bottom margin? -/
def spacingBelow (evs : List Ev) : Bool :=
  evs.any fun e =>
    match e with
    | Ev.spacing _ ya => decide (ya < MARGIN_BOTTOM)
    | _ => false

/-- Does the trace contain a subtitle-line placement that left the cursor
under the bottom margin? -/
def subLineBelow (evs : List Ev) : Bool :=
  evs.any fun e =>
    match e with
    | Ev.subLine _ _ ya => decide (ya < MARGIN_BOTTOM)
    | _ => false

/-- C7: the claim as stated is false on two counts.  An empty-line spacing
directive decrements the cursor with no page-break check, so a chapter of 69
blank lines leaves the cursor below `MARGIN_BOTTOM` right after a spacing
placement.  And the subtitle inner loop never breaks the page per line, so a
subtitle block that wraps to 25 lines (here a line led by the fullwidth digit
１ — a subtitle, since the regex class matches Unicode decimal digits — of
100 characters of width 100 each) draws its last subtitle lines below
`MARGIN_BOTTOM` too.  No page break occurs at either violating placement. -/
theorem C7_counterexample :
    spacingBelow
      (create_full_pdf (fun s => (s.length : ℚ)) (fun s => (s.length : ℚ))
        [(1, List.replicate 68 '\n')] [] "고객".data none
        "2026년 01월 01일".data).1 = true ∧
    subLineBelow
      (create_full_pdf (fun s => 100 * (s.length : ℚ))
        (fun s => 100 * (s.length : ℚ))
        [(1, '１' :: '.' :: List.replicate 98 'a')] [] "고객".data none
        "2026년 01월 01일".data).1 = true := by
  constructor <;> decide

/-- C9: the claim as stated is false: the cover page draws the generation
date read from the system clock (`datetime.now()`), so two assemblies of the
same chapter list and asset pool at different times differ in the cover-date
drawing call, and the output is not a pure function of chapters, assets and
font choice. -/
theorem C9_counterexample :
    create_full_pdf (fun s => (s.length : ℚ)) (fun s => (s.length : ℚ))
        [(1, "본문입니다.".data)] [] "고객".data none "2026년 01월 01일".data ≠
      create_full_pdf (fun s => (s.length : ℚ)) (fun s => (s.length : ℚ))
        [(1, "본문입니다.".data)] [] "고객".data none "2026년 01월 02일".data := by
  decide

/-- Blank out the generation-date text (the one clock-dependent drawing). -/
def scrubDate : Ev → Ev
  | Ev.coverDate p _ => Ev.coverDate p []
  | e => e

/-- C9 (amended): assembly is deterministic in chapters, asset pool, customer
data and width measures; the only clock dependence is the generation-date
string drawn on the cover.  Two runs at different clock values produce the
same page count and traces that agree on every event once the cover-date text
is blanked. -/
theorem C9_deterministic_modulo_date (swB swS : LC → ℚ) (chapters : List (ℕ × LC))
    (pool : List (LC × ℚ × ℚ)) (customer : LC) (info : Option (LC × LC))
    (today1 today2 : LC) :
    (create_full_pdf swB swS chapters pool customer info today1).2 =
      (create_full_pdf swB swS chapters pool customer info today2).2 ∧
    (create_full_pdf swB swS chapters pool customer info today1).1.map scrubDate =
      (create_full_pdf swB swS chapters pool customer info today2).1.map scrubDate := by
  constructor
  · rfl
  · cases info <;> simp [create_full_pdf, scrubDate]

/-- The asset name carried by an image-placement event. -/
def imgName? : Ev → Option LC
  | Ev.img _ nm _ _ _ _ _ => some nm
  | _ => none

/-- The image names placed within a span of events, in order. -/
def imgNames (evs : List Ev) : List LC := evs.filterMap imgName?

/-- Bookkeeping contract of a span of the assembly: the used set only grows,
the span places pairwise distinct images, and each placed name ends up in the
final used set while being absent from the initial one. -/
def UsedOk (st st' : St) (evs : List Ev) : Prop :=
  st.used ⊆ st'.used ∧ (imgNames evs).Nodup ∧
    ∀ n ∈ imgNames evs, n ∈ st'.used ∧ n ∉ st.used

theorem usedOk_comp {st1 st2 st3 : St} {e1 e2 : List Ev}
    (h1 : UsedOk st1 st2 e1) (h2 : UsedOk st2 st3 e2) :
    UsedOk st1 st3 (e1 ++ e2) := by
  obtain ⟨s1, n1, m1⟩ := h1
  obtain ⟨s2, n2, m2⟩ := h2
  refine ⟨fun x hx => s2 (s1 hx), ?_, ?_⟩
  · rw [imgNames, List.filterMap_append]
    refine n1.append n2 ?_
    intro n hn1 hn2
    exact (m2 n hn2).2 (m1 n hn1).1
  · intro n hn
    rw [imgNames, List.filterMap_append, List.mem_append] at hn
    rcases hn with h | h
    · exact ⟨s2 (m1 n h).1, (m1 n h).2⟩
    · exact ⟨(m2 n h).1, fun hin => (m2 n h).2 (s1 hin)⟩

theorem usedOk_refl_of_used_eq {st st' : St} (h : st.used = st'.used)
    {evs : List Ev} (hevs : imgNames evs = []) : UsedOk st st' evs := by
  refine ⟨fun x hx => h ▸ hx, ?_, ?_⟩
  · rw [hevs]; exact List.nodup_nil
  · intro n hn; rw [hevs] at hn; cases hn

theorem imgNames_eq_nil {evs : List Ev} (h : ∀ e ∈ evs, imgName? e = none) :
    imgNames evs = [] := by
  induction evs with
  | nil => rfl
  | cons e es ih =>
    rw [imgNames, List.filterMap_cons, h e (List.mem_cons_self e es)]
    exact ih fun x hx => h x (List.mem_cons_of_mem e hx)

theorem ite_newPage_used (c : Prop) [Decidable c] (s : St) :
    (if c then newPage s else s).used = s.used := by
  split <;> rfl

theorem drawBodyLines_shape :
    ∀ (ls : List LC) (st : St), ∀ e ∈ (drawBodyLines st ls).2,
      ∃ p t ya, e = Ev.body p t ya := by
  intro ls
  induction ls with
  | nil => intro st e he; simp [drawBodyLines] at he
  | cons l ls ih =>
    intro st e he
    simp only [drawBodyLines] at he
    rcases List.mem_cons.mp he with h | h
    · exact ⟨_, _, _, h⟩
    · exact ih _ e h

theorem drawBodyLines_used :
    ∀ (ls : List LC) (st : St), (drawBodyLines st ls).1.used = st.used := by
  intro ls
  induction ls with
  | nil => intro st; rfl
  | cons l ls ih =>
    intro st
    simp only [drawBodyLines]
    rw [ih]
    exact ite_newPage_used _ st

theorem drawSubLines_shape :
    ∀ (ls : List LC) (y : ℚ) (page : ℕ), ∀ e ∈ (drawSubLines page y ls).2,
      ∃ t ya, e = Ev.subLine page t ya := by
  intro ls
  induction ls with
  | nil => intro y page e he; simp [drawSubLines] at he
  | cons l ls ih =>
    intro y page e he
    simp only [drawSubLines] at he
    rcases List.mem_cons.mp he with h | h
    · exact ⟨_, _, h⟩
    · exact ih _ _ e h

theorem tocLoop_shape :
    ∀ (ns : List ℕ) (st : St), ∀ e ∈ (tocLoop st ns).2,
      ∃ p t y, e = Ev.tocEntry p t y := by
  intro ns
  induction ns with
  | nil => intro st e he; simp [tocLoop] at he
  | cons n ns ih =>
    intro st e he
    simp only [tocLoop] at he
    rcases List.mem_cons.mp he with h | h
    · exact ⟨_, _, _, h⟩
    · exact ih _ e h

theorem placeImg_used (st : St) (e : LC × ℚ × ℚ) :
    (placeImg st e).1.used = e.1 :: st.used := by
  simp only [placeImg]
  rw [ite_newPage_used]

theorem placeImg_events (st : St) (e : LC × ℚ × ℚ) :
    (placeImg st e).2 =
      [Ev.img (if st.y - e.2.2 * imgScale e.2.1 e.2.2 < MARGIN_BOTTOM + 50 then
          newPage st else st).page e.1
        ((PAGE_WIDTH - e.2.1 * imgScale e.2.1 e.2.2) / 2)
        ((if st.y - e.2.2 * imgScale e.2.1 e.2.2 < MARGIN_BOTTOM + 50 then
          newPage st else st).y - e.2.2 * imgScale e.2.1 e.2.2)
        (e.2.1 * imgScale e.2.1 e.2.2) (e.2.2 * imgScale e.2.1 e.2.2)
        ((if st.y - e.2.2 * imgScale e.2.1 e.2.2 < MARGIN_BOTTOM + 50 then
          newPage st else st).y - e.2.2 * imgScale e.2.1 e.2.2 -
            BODY_LINE_HEIGHT * 2)] := rfl

theorem placeImg_usedOk (st : St) (e : LC × ℚ × ℚ) (h : e.1 ∉ st.used) :
    UsedOk st (placeImg st e).1 (placeImg st e).2 := by
  refine ⟨?_, ?_, ?_⟩
  · intro x hx
    rw [placeImg_used]
    exact List.mem_cons_of_mem _ hx
  · rw [placeImg_events]
    simp [imgNames, imgName?]
  · intro n hn
    rw [placeImg_events] at hn
    simp only [imgNames, imgName?, List.filterMap_cons, List.filterMap_nil,
      List.mem_singleton] at hn
    subst hn
    rw [placeImg_used]
    exact ⟨List.mem_cons_self _ _, h⟩

theorem placeSubtitle_used (swS : LC → ℚ) (st : St) (line : LC) :
    (placeSubtitle swS st line).1.used = st.used := by
  simp only [placeSubtitle]
  rw [ite_newPage_used]

theorem placeSubtitle_shape (swS : LC → ℚ) (st : St) (line : LC) :
    ∀ e ∈ (placeSubtitle swS st line).2, ∃ p t ya, e = Ev.subLine p t ya := by
  intro e he
  simp only [placeSubtitle] at he
  obtain ⟨t, ya, h⟩ := drawSubLines_shape _ _ _ e he
  exact ⟨_, t, ya, h⟩

theorem procLine_usedOk (swB swS : LC → ℚ) (pool : List (LC × ℚ × ℚ))
    (st : St) (raw : LC) :
    UsedOk st (procLine swB swS pool st raw).1 (procLine swB swS pool st raw).2 := by
  unfold procLine
  split
  · exact usedOk_refl_of_used_eq rfl (by simp [imgNames, imgName?])
  · split
    · split
      · split
        · exact usedOk_refl_of_used_eq rfl (by simp [imgNames])
        · rename_i hnc
          refine placeImg_usedOk st _ fun hmem => hnc ?_
          simpa using hmem
      · exact usedOk_refl_of_used_eq rfl (by simp [imgNames])
    · split
      · refine usedOk_refl_of_used_eq (placeSubtitle_used swS st _).symm
          (imgNames_eq_nil ?_)
        intro e hev
        obtain ⟨p, t, ya, hrfl⟩ := placeSubtitle_shape swS st _ e hev
        subst hrfl; rfl
      · refine usedOk_refl_of_used_eq (drawBodyLines_used _ _).symm (imgNames_eq_nil ?_)
        intro e hev
        obtain ⟨p, t, ya, hrfl⟩ := drawBodyLines_shape _ _ e hev
        subst hrfl; rfl

theorem procLines_usedOk (swB swS : LC → ℚ) (pool : List (LC × ℚ × ℚ)) :
    ∀ (ls : List LC) (st : St),
      UsedOk st (procLines swB swS pool st ls).1 (procLines swB swS pool st ls).2 := by
  intro ls
  induction ls with
  | nil => intro st; exact usedOk_refl_of_used_eq rfl rfl
  | cons l ls ih =>
    intro st
    simp only [procLines]
    exact usedOk_comp (procLine_usedOk swB swS pool st l) (ih _)

theorem procChapter_usedOk (swB swS : LC → ℚ) (pool : List (LC × ℚ × ℚ))
    (st : St) (c : ℕ × LC) :
    UsedOk st (procChapter swB swS pool st c).1 (procChapter swB swS pool st c).2 := by
  simp only [procChapter]
  obtain ⟨s1, n1, m1⟩ := procLines_usedOk swB swS pool (splitNl c.2) (newPage (newPage st))
  refine ⟨s1, ?_, ?_⟩
  · simpa [imgNames, List.filterMap_cons, imgName?] using n1
  · intro n hn
    simp only [imgNames, List.filterMap_cons, imgName?] at hn
    exact m1 n hn

theorem procChapters_usedOk (swB swS : LC → ℚ) (pool : List (LC × ℚ × ℚ)) :
    ∀ (cs : List (ℕ × LC)) (st : St),
      UsedOk st (procChapters swB swS pool st cs).1 (procChapters swB swS pool st cs).2 := by
  intro cs
  induction cs with
  | nil => intro st; exact usedOk_refl_of_used_eq rfl rfl
  | cons c cs ih =>
    intro st
    simp only [procChapters]
    exact usedOk_comp (procChapter_usedOk swB swS pool st c) (ih _)

/-- C3: over any assembly, every image asset is placed at most once: the
placed image names of the whole trace are pairwise distinct.  A later
placeholder resolving to an already placed asset takes the silent skip branch
(no drawing event, no error), in whatever chapter it occurs. -/
theorem C3_images_placed_at_most_once (swB swS : LC → ℚ)
    (chapters : List (ℕ × LC)) (pool : List (LC × ℚ × ℚ)) (customer : LC)
    (info : Option (LC × LC)) (today : LC) :
    (imgNames (create_full_pdf swB swS chapters pool customer info today).1).Nodup := by
  have key : ∀ {l1 l2 : List Ev}, (∀ e ∈ l1, imgName? e = none) →
      (imgNames l2).Nodup → (imgNames (l1 ++ l2)).Nodup := by
    intro l1 l2 h h2
    rw [imgNames, List.filterMap_append]
    rw [show List.filterMap imgName? l1 = [] from imgNames_eq_nil h, List.nil_append]
    exact h2
  unfold create_full_pdf
  simp only []
  refine key ?_ ((procChapters_usedOk swB swS pool (sortChapters chapters) _).2.1)
  intro e he
  rcases List.mem_append.mp he with h | h
  · cases e <;> try rfl
    cases info <;> simp at h
  · rcases List.mem_cons.mp h with h | h
    · subst h; rfl
    · obtain ⟨p, t, y, hrfl⟩ := tocLoop_shape _ _ e h
      subst hrfl; rfl

/-- Per-event scaling contract: an image-placement event draws a pool asset at
its native size times the uniform scale factor, horizontally centered. -/
def imgSpec (pool : List (LC × ℚ × ℚ)) : Ev → Prop
  | Ev.img _ nm x _ w h _ =>
    ∃ nw nh, (nm, nw, nh) ∈ pool ∧ w = nw * imgScale nw nh ∧
      h = nh * imgScale nw nh ∧ x = (PAGE_WIDTH - w) / 2
  | _ => True

theorem placeImg_imgSpec (pool : List (LC × ℚ × ℚ)) (st : St)
    (e : LC × ℚ × ℚ) (he : e ∈ pool) :
    ∀ ev ∈ (placeImg st e).2, imgSpec pool ev := by
  intro ev hev
  rw [placeImg_events] at hev
  rw [List.mem_singleton] at hev
  subst hev
  exact ⟨e.2.1, e.2.2, he, rfl, rfl, rfl⟩

theorem procLine_imgSpec (swB swS : LC → ℚ) (pool : List (LC × ℚ × ℚ))
    (st : St) (raw : LC) :
    ∀ ev ∈ (procLine swB swS pool st raw).2, imgSpec pool ev := by
  unfold procLine
  split
  · intro ev hev
    rw [List.mem_singleton] at hev
    subst hev; trivial
  · split
    · split
      · split
        · intro ev hev; simp at hev
        · rename_i e hf hnc
          rw [find_image] at hf
          exact placeImg_imgSpec pool st e (List.mem_of_find?_eq_some hf)
      · intro ev hev; simp at hev
    · split
      · intro ev hev
        obtain ⟨p, t, ya, h⟩ := placeSubtitle_shape _ _ _ ev hev
        subst h; trivial
      · intro ev hev
        obtain ⟨p, t, ya, h⟩ := drawBodyLines_shape _ _ ev hev
        subst h; trivial

theorem procLines_imgSpec (swB swS : LC → ℚ) (pool : List (LC × ℚ × ℚ)) :
    ∀ (ls : List LC) (st : St),
      ∀ ev ∈ (procLines swB swS pool st ls).2, imgSpec pool ev := by
  intro ls
  induction ls with
  | nil => intro st ev hev; simp [procLines] at hev
  | cons l ls ih =>
    intro st ev hev
    simp only [procLines] at hev
    rcases List.mem_append.mp hev with h | h
    · exact procLine_imgSpec swB swS pool st l ev h
    · exact ih _ ev h

theorem procChapters_imgSpec (swB swS : LC → ℚ) (pool : List (LC × ℚ × ℚ)) :
    ∀ (cs : List (ℕ × LC)) (st : St),
      ∀ ev ∈ (procChapters swB swS pool st cs).2, imgSpec pool ev := by
  intro cs
  induction cs with
  | nil => intro st ev hev; simp [procChapters] at hev
  | cons c cs ih =>
    intro st ev hev
    simp only [procChapters] at hev
    rcases List.mem_append.mp hev with h | h
    · simp only [procChapter] at h
      rcases List.mem_cons.mp h with h | h
      · subst h; trivial
      rcases List.mem_cons.mp h with h | h
      · subst h; trivial
      · exact procLines_imgSpec swB swS pool _ _ ev h
    · exact ih _ ev h

theorem create_full_pdf_imgSpec (swB swS : LC → ℚ) (chapters : List (ℕ × LC))
    (pool : List (LC × ℚ × ℚ)) (customer : LC) (info : Option (LC × LC))
    (today : LC) :
    ∀ ev ∈ (create_full_pdf swB swS chapters pool customer info today).1,
      imgSpec pool ev := by
  intro ev hev
  unfold create_full_pdf at hev
  simp only [] at hev
  rcases List.mem_append.mp hev with h | h
  · rcases List.mem_append.mp h with h | h
    · cases ev <;> try trivial
      cases info <;> simp at h
    · rcases List.mem_cons.mp h with h | h
      · subst h; trivial
      · obtain ⟨p, t, y, hrfl⟩ := tocLoop_shape _ _ ev h
        subst hrfl; trivial
  · exact procChapters_imgSpec swB swS pool _ _ ev h

/-- C8: every image placed during assembly is drawn at its native pixel size
times the uniform scale factor min(0.9·textWidth/imgWidth,
0.4·pageHeight/imgHeight, 1): it is never upscaled beyond native resolution,
fits within 90% of the text width and 40% of the page height, and is
horizontally centered. -/
theorem C8_image_scaling (swB swS : LC → ℚ) (chapters : List (ℕ × LC))
    (pool : List (LC × ℚ × ℚ)) (customer : LC) (info : Option (LC × LC))
    (today : LC)
    (hpool : ∀ q ∈ pool, 0 < q.2.1 ∧ 0 < q.2.2)
    (p : ℕ) (nm : LC) (x y w h ya : ℚ)
    (hmem : Ev.img p nm x y w h ya ∈
      (create_full_pdf swB swS chapters pool customer info today).1) :
    ∃ nw nh, (nm, nw, nh) ∈ pool ∧
      imgScale nw nh =
        min ((TEXT_WIDTH * (9 / 10)) / nw) (min ((PAGE_HEIGHT * (2 / 5)) / nh) 1) ∧
      w = nw * imgScale nw nh ∧ h = nh * imgScale nw nh ∧
      w ≤ nw ∧ h ≤ nh ∧ w ≤ TEXT_WIDTH * (9 / 10) ∧ h ≤ PAGE_HEIGHT * (2 / 5) ∧
      x = (PAGE_WIDTH - w) / 2 := by
  have hspec := create_full_pdf_imgSpec swB swS chapters pool customer info today _ hmem
  obtain ⟨nw, nh, hin, hw, hh, hx⟩ := hspec
  obtain ⟨hnw, hnh⟩ := hpool _ hin
  have hs1 : imgScale nw nh ≤ 1 :=
    le_trans (min_le_right _ _) (min_le_right _ _)
  have hsA : imgScale nw nh ≤ (TEXT_WIDTH * (9 / 10)) / nw := min_le_left _ _
  have hsB : imgScale nw nh ≤ (PAGE_HEIGHT * (2 / 5)) / nh :=
    le_trans (min_le_right _ _) (min_le_left _ _)
  refine ⟨nw, nh, hin, rfl, hw, hh, ?_, ?_, ?_, ?_, hx⟩
  · rw [hw]
    calc nw * imgScale nw nh ≤ nw * 1 :=
          mul_le_mul_of_nonneg_left hs1 (le_of_lt hnw)
      _ = nw := mul_one nw
  · rw [hh]
    calc nh * imgScale nw nh ≤ nh * 1 :=
          mul_le_mul_of_nonneg_left hs1 (le_of_lt hnh)
      _ = nh := mul_one nh
  · rw [hw]
    calc nw * imgScale nw nh ≤ nw * ((TEXT_WIDTH * (9 / 10)) / nw) :=
          mul_le_mul_of_nonneg_left hsA (le_of_lt hnw)
      _ = TEXT_WIDTH * (9 / 10) := by
          field_simp
          ring
  · rw [hh]
    calc nh * imgScale nw nh ≤ nh * ((PAGE_HEIGHT * (2 / 5)) / nh) :=
          mul_le_mul_of_nonneg_left hsB (le_of_lt hnh)
      _ = PAGE_HEIGHT * (2 / 5) := by
          field_simp
          ring

/-- C8 witness: scenario B: the placeholder resolving to the 800x600 asset
"05_오행분석.png" is placed once on the content page, scaled by 324/635 (the
width limit binds), centered; the scaling contract instantiated there. -/
theorem C8_image_scaling_witness :
    (∀ q ∈ [("05_오행분석.png".data, (800 : ℚ), (600 : ℚ))], 0 < q.2.1 ∧ 0 < q.2.2) ∧
    Ev.img 4 "05_오행분석.png".data (11880 / 127) (59040 / 127) (51840 / 127)
        (38880 / 127) (269292 / 635) ∈
      (create_full_pdf (fun s => (s.length : ℚ)) (fun s => (s.length : ℚ))
        [(1, "\x7b\x7bIMG:05_오행분석\x7d\x7d".data)]
        [("05_오행분석.png".data, 800, 600)] "고객".data none
        "2026년 01월 01일".data).1 ∧
    (∃ nw nh, ("05_오행분석.png".data, nw, nh) ∈
        [("05_오행분석.png".data, (800 : ℚ), (600 : ℚ))] ∧
      imgScale nw nh =
        min ((TEXT_WIDTH * (9 / 10)) / nw) (min ((PAGE_HEIGHT * (2 / 5)) / nh) 1) ∧
      51840 / 127 = nw * imgScale nw nh ∧ 38880 / 127 = nh * imgScale nw nh ∧
      (51840 / 127 : ℚ) ≤ nw ∧ (38880 / 127 : ℚ) ≤ nh ∧
      (51840 / 127 : ℚ) ≤ TEXT_WIDTH * (9 / 10) ∧
      (38880 / 127 : ℚ) ≤ PAGE_HEIGHT * (2 / 5) ∧
      (11880 / 127 : ℚ) = (PAGE_WIDTH - 51840 / 127) / 2) :=
  ⟨by decide, by decide,
    C8_image_scaling (fun s => (s.length : ℚ)) (fun s => (s.length : ℚ))
      [(1, "\x7b\x7bIMG:05_오행분석\x7d\x7d".data)]
      [("05_오행분석.png".data, 800, 600)] "고객".data none
      "2026년 01월 01일".data (by decide) 4 "05_오행분석.png".data
      (11880 / 127) (59040 / 127) (51840 / 127) (38880 / 127) (269292 / 635)
      (by decide)⟩

/-- Predicate `is_chapter_title(text)` (pdf_generator.py lines 297-298): the text starts
with the character 제 and the character 장 occurs among its first ten
characters. -/
def is_chapter_title (t : LC) : Bool :=
  (match t.head? with
   | some c => c == '제'
   | none => false) && (t.take 10).contains '장'

/-- Predicate `is_subtitle(text)` (pdf_generator.py lines 300-302): one of the seven
marker glyphs leads the line. -/
def is_subtitle (t : LC) : Bool :=
  match t.head? with
  | some c => (['▶', '●', '◆', '★', '■', '□', '○'] : LC).contains c
  | none => false

/-- Predicate `has_img_tag(text)` (pdf_generator.py lines 294-295). -/
def has_img_tag (t : LC) : Bool := (searchImgTag t).isSome

/-- The four block roles of the v1 content dispatch. -/
inductive BlockKind where
  | title
  | image
  | subtitle
  | para
deriving DecidableEq

/-- The branch order of `create_pdf`'s per-block dispatch (pdf_generator.py
lines 331-471): chapter title first (guarded by the `first_item` flag), then
image marker, then subtitle, then body paragraph. -/
def classifyOne (first : Bool) (t : LC) : BlockKind :=
  if is_chapter_title t && first then BlockKind.title
  else if has_img_tag t then BlockKind.image
  else if is_subtitle t then BlockKind.subtitle
  else BlockKind.para

/-- The `first_item` update of the same loop: the title branch (line 373) and
the paragraph branch (line 471) clear the flag; the image and subtitle
branches leave it unchanged. -/
def nextFirst (first : Bool) (k : BlockKind) : Bool :=
  match k with
  | BlockKind.title => false
  | BlockKind.image => first
  | BlockKind.subtitle => first
  | BlockKind.para => false

/-- The classification sequence of one chapter's blocks under the running
`first_item` flag. -/
def classifyBlocks (first : Bool) : List LC → List BlockKind
  | [] => []
  | t :: ts =>
    classifyOne first t :: classifyBlocks (nextFirst first (classifyOne first t)) ts

/-- C5: the claim as stated is false: in `create_pdf` the chapter-title check
precedes the image-marker check, so the eligible first block "제1장 (marker)",
which both matches the title pattern and contains an image marker, is
classified as a chapter title, not as an image placeholder. -/
theorem C5_counterexample :
    has_img_tag ("제1장 \x7b\x7bIMG:x\x7d\x7d".data) = true ∧
    is_chapter_title ("제1장 \x7b\x7bIMG:x\x7d\x7d".data) = true ∧
    classifyOne true ("제1장 \x7b\x7bIMG:x\x7d\x7d".data) = BlockKind.title ∧
    BlockKind.title ≠ BlockKind.image := by
  refine ⟨by decide, by decide, by decide, by decide⟩

/-- C5 (amended): the per-block precedence of the v1 dispatch is chapter
title (only while the first-item flag is set), then image placeholder, then
subtitle, then paragraph.  A line containing an image marker is never
classified as a subtitle or paragraph, but it is classified as a chapter
title exactly when the flag is set and the title pattern matches. -/
theorem C5_img_precedence (first : Bool) (t : LC) (h : has_img_tag t = true) :
    classifyOne first t ≠ BlockKind.subtitle ∧
    classifyOne first t ≠ BlockKind.para ∧
    (classifyOne first t = BlockKind.title ↔ (is_chapter_title t && first) = true) := by
  unfold classifyOne
  by_cases hc : (is_chapter_title t && first) = true
  · simp [hc]
  · simp [hc, h]

/-- C5 witness: the marker-bearing line with the flag cleared: it is
classified as an image placeholder, not as subtitle, paragraph or title. -/
theorem C5_img_precedence_witness :
    has_img_tag ("제1장 \x7b\x7bIMG:x\x7d\x7d".data) = true ∧
    (classifyOne false ("제1장 \x7b\x7bIMG:x\x7d\x7d".data) ≠ BlockKind.subtitle ∧
     classifyOne false ("제1장 \x7b\x7bIMG:x\x7d\x7d".data) ≠ BlockKind.para ∧
     (classifyOne false ("제1장 \x7b\x7bIMG:x\x7d\x7d".data) = BlockKind.title ↔
       (is_chapter_title ("제1장 \x7b\x7bIMG:x\x7d\x7d".data) && false) = true)) :=
  ⟨by decide, C5_img_precedence false ("제1장 \x7b\x7bIMG:x\x7d\x7d".data) (by decide)⟩

/-- C6: the claim as stated is false: the `first_item` flag is not cleared by
a subtitle block, so in a chapter starting with the subtitle "▶소제목" the
second block "제1장 테스트" still matches the chapter-title branch and starts
a title page, although it is not the first content block. -/
theorem C6_counterexample :
    classifyBlocks true ["▶소제목".data, "제1장 테스트".data] =
      [BlockKind.subtitle, BlockKind.title] := by decide

theorem nextFirst_false (k : BlockKind) : nextFirst false k = false := by
  cases k <;> rfl

theorem title_notin_classifyBlocks_false :
    ∀ ts : List LC, BlockKind.title ∉ classifyBlocks false ts := by
  intro ts
  induction ts with
  | nil => simp [classifyBlocks]
  | cons t ts ih =>
    simp only [classifyBlocks, nextFirst_false]
    intro hmem
    rcases List.mem_cons.mp hmem with h | h
    · rw [classifyOne] at h
      rw [Bool.and_false] at h
      split at h
      · simp_all
      · split at h
        · cases h
        · split at h <;> cases h
    · exact ih h

/-- C6 (amended): a chapter-title block can only appear while no paragraph or
title block has yet been processed in the chapter: every block classified
before a title block is an image placeholder or a subtitle (those branches do
not clear the first-item flag), and after the first paragraph or title block
no further block is classified as a title. -/
theorem C6_title_only_before_content :
    ∀ (blocks : List LC) (pre post : List BlockKind),
      classifyBlocks true blocks = pre ++ BlockKind.title :: post →
      ∀ k ∈ pre, k = BlockKind.image ∨ k = BlockKind.subtitle := by
  intro blocks
  induction blocks with
  | nil =>
    intro pre post h k hk
    rw [classifyBlocks] at h
    exact absurd h.symm (List.append_ne_nil_of_right_ne_nil pre (by simp))
  | cons t ts ih =>
    intro pre post h k hk
    simp only [classifyBlocks] at h
    cases pre with
    | nil => cases hk
    | cons p pre' =>
      rw [List.cons_append] at h
      injection h with h1 h2
      cases hct : classifyOne true t with
      | title =>
        rw [hct] at h2
        simp only [nextFirst] at h2
        refine absurd ?_ (title_notin_classifyBlocks_false ts)
        rw [h2]
        exact List.mem_append_right pre' (List.mem_cons_self _ _)
      | para =>
        rw [hct] at h2
        simp only [nextFirst] at h2
        refine absurd ?_ (title_notin_classifyBlocks_false ts)
        rw [h2]
        exact List.mem_append_right pre' (List.mem_cons_self _ _)
      | image =>
        rcases List.mem_cons.mp hk with hkp | hkpre
        · rw [hct] at h1
          exact Or.inl (by rw [hkp, ← h1])
        · rw [hct] at h2
          simp only [nextFirst] at h2
          exact ih pre' post h2 k hkpre
      | subtitle =>
        rcases List.mem_cons.mp hk with hkp | hkpre
        · rw [hct] at h1
          exact Or.inr (by rw [hkp, ← h1])
        · rw [hct] at h2
          simp only [nextFirst] at h2
          exact ih pre' post h2 k hkpre

/-- C6 witness: a chapter starting with an image placeholder: the second block
still becomes the title block, and every block before the title is an image
or subtitle block. -/
theorem C6_title_only_before_content_witness :
    classifyBlocks true ["\x7b\x7bIMG:x\x7d\x7d".data, "제1장 개요".data] =
      [BlockKind.image] ++ BlockKind.title :: [] ∧
    ∀ k ∈ [BlockKind.image], k = BlockKind.image ∨ k = BlockKind.subtitle :=
  ⟨by decide,
    C6_title_only_before_content ["\x7b\x7bIMG:x\x7d\x7d".data, "제1장 개요".data]
      [BlockKind.image] [] (by decide)⟩

theorem BODY_LINE_HEIGHT_val : BODY_LINE_HEIGHT = 102 / 5 := by
  norm_num [BODY_LINE_HEIGHT, BODY_SIZE]

theorem SUBTITLE_LINE_HEIGHT_val : SUBTITLE_LINE_HEIGHT = 30 := by
  norm_num [SUBTITLE_LINE_HEIGHT, SUBTITLE_SIZE]

theorem MARGIN_BOTTOM_val : MARGIN_BOTTOM = 9000 / 127 := by
  norm_num [MARGIN_BOTTOM, mmPt]

theorem topY_val : PAGE_HEIGHT - MARGIN_TOP = 97920 / 127 := by
  norm_num [PAGE_HEIGHT, MARGIN_TOP, mmPt]

theorem TEXT_WIDTH_val : TEXT_WIDTH = 57600 / 127 := by
  norm_num [TEXT_WIDTH, PAGE_WIDTH, MARGIN_LEFT, MARGIN_RIGHT, mmPt]

theorem PAGE_HEIGHT_val : PAGE_HEIGHT = 106920 / 127 := by
  norm_num [PAGE_HEIGHT, mmPt]

/-- The cursor range the claim asserts after a placement: within the margins
band, for the three kinds of cursor placements (body line, subtitle line,
image); every other event is unconstrained. -/
def evInBounds : Ev → Prop
  | Ev.body _ _ ya => MARGIN_BOTTOM ≤ ya ∧ ya ≤ PAGE_HEIGHT - MARGIN_TOP
  | Ev.subLine _ _ ya => MARGIN_BOTTOM ≤ ya ∧ ya ≤ PAGE_HEIGHT - MARGIN_TOP
  | Ev.img _ _ _ _ _ _ ya => MARGIN_BOTTOM ≤ ya ∧ ya ≤ PAGE_HEIGHT - MARGIN_TOP
  | _ => True

theorem drawBodyLines_bounds :
    ∀ (ls : List LC) (st : St), st.y ≤ PAGE_HEIGHT - MARGIN_TOP →
      (∀ e ∈ (drawBodyLines st ls).2, evInBounds e) ∧
        (drawBodyLines st ls).1.y ≤ PAGE_HEIGHT - MARGIN_TOP := by
  have hc : MARGIN_BOTTOM + 30 ≤ PAGE_HEIGHT - MARGIN_TOP := by
    rw [MARGIN_BOTTOM_val, topY_val]; norm_num
  have hb0 : BODY_LINE_HEIGHT = 102 / 5 := BODY_LINE_HEIGHT_val
  intro ls
  induction ls with
  | nil =>
    intro st hst
    exact ⟨fun e he => by simp [drawBodyLines] at he, hst⟩
  | cons l ls ih =>
    intro st hst
    simp only [drawBodyLines]
    by_cases hbr : st.y < MARGIN_BOTTOM + 30
    · rw [if_pos hbr]
      have h1 : (newPage st).y = PAGE_HEIGHT - MARGIN_TOP := rfl
      have hrec := ih { newPage st with y := (newPage st).y - BODY_LINE_HEIGHT }
        (by rw [h1]; rw [hb0]; norm_num)
      refine ⟨?_, hrec.2⟩
      intro e he
      rcases List.mem_cons.mp he with h | h
      · subst h
        refine ⟨?_, ?_⟩ <;> rw [h1, hb0] <;> [skip; skip] <;>
          first
            | (rw [MARGIN_BOTTOM_val, topY_val]; norm_num)
            | (rw [topY_val]; norm_num)
      · exact hrec.1 e h
    · rw [if_neg hbr]
      have hge : MARGIN_BOTTOM + 30 ≤ st.y := le_of_not_lt hbr
      have hrec := ih { st with y := st.y - BODY_LINE_HEIGHT }
        (by simp only []; rw [hb0]; linarith)
      refine ⟨?_, hrec.2⟩
      intro e he
      rcases List.mem_cons.mp he with h | h
      · subst h
        constructor
        · rw [hb0]; linarith
        · rw [hb0]; linarith
      · exact hrec.1 e h

theorem drawSubLines_y :
    ∀ (ls : List LC) (y : ℚ) (page : ℕ),
      (drawSubLines page y ls).1 = y - ls.length * SUBTITLE_LINE_HEIGHT := by
  intro ls
  induction ls with
  | nil => intro y page; simp [drawSubLines]
  | cons l ls ih =>
    intro y page
    simp only [drawSubLines, ih, List.length_cons]
    push_cast
    ring

theorem drawSubLines_bounds :
    ∀ (ls : List LC) (y : ℚ) (page : ℕ),
      MARGIN_BOTTOM ≤ y - ls.length * SUBTITLE_LINE_HEIGHT →
      y ≤ PAGE_HEIGHT - MARGIN_TOP →
      ∀ e ∈ (drawSubLines page y ls).2, evInBounds e := by
  have hs0 : SUBTITLE_LINE_HEIGHT = 30 := SUBTITLE_LINE_HEIGHT_val
  intro ls
  induction ls with
  | nil => intro y page hlow hup e he; simp [drawSubLines] at he
  | cons l ls ih =>
    intro y page hlow hup e he
    have hcast : ((l :: ls).length : ℚ) = (ls.length : ℚ) + 1 := by
      rw [List.length_cons]; push_cast; ring
    rw [hcast] at hlow
    have hn0 : (0 : ℚ) ≤ (ls.length : ℚ) := Nat.cast_nonneg _
    simp only [drawSubLines] at he
    rcases List.mem_cons.mp he with h | h
    · subst h
      constructor
      · rw [hs0]; rw [hs0] at hlow; nlinarith
      · rw [hs0]; linarith
    · refine ih (y - SUBTITLE_LINE_HEIGHT) page ?_ ?_ e h
      · rw [hs0]; rw [hs0] at hlow; nlinarith
      · rw [hs0]; linarith

theorem placeSubtitle_bounds (swS : LC → ℚ) (st : St) (line : LC)
    (hn : (wrap_text swS TEXT_WIDTH line).length ≤ 22)
    (hup : st.y ≤ PAGE_HEIGHT - MARGIN_TOP) :
    (∀ e ∈ (placeSubtitle swS st line).2, evInBounds e) ∧
      (placeSubtitle swS st line).1.y ≤ PAGE_HEIGHT - MARGIN_TOP := by
  have hs0 := SUBTITLE_LINE_HEIGHT_val
  have hnq : ((wrap_text swS TEXT_WIDTH line).length : ℚ) ≤ 22 := by exact_mod_cast hn
  have hn0 : (0 : ℚ) ≤ ((wrap_text swS TEXT_WIDTH line).length : ℚ) := Nat.cast_nonneg _
  simp only [placeSubtitle]
  by_cases hbr : st.y - (((wrap_text swS TEXT_WIDTH line).length : ℚ) *
      SUBTITLE_LINE_HEIGHT + 20) < MARGIN_BOTTOM + 30
  · rw [if_pos hbr]
    have h1 : (newPage st).y = PAGE_HEIGHT - MARGIN_TOP := rfl
    constructor
    · refine drawSubLines_bounds _ _ _ ?_ ?_
      · rw [h1, topY_val, MARGIN_BOTTOM_val, hs0]
        linarith
      · rw [h1]; linarith
    · rw [drawSubLines_y, h1, hs0]
      linarith
  · rw [if_neg hbr]
    have hge : MARGIN_BOTTOM + 30 ≤ st.y -
        (((wrap_text swS TEXT_WIDTH line).length : ℚ) * SUBTITLE_LINE_HEIGHT + 20) :=
      le_of_not_lt hbr
    constructor
    · refine drawSubLines_bounds _ _ _ ?_ ?_
      · linarith
      · linarith
    · rw [drawSubLines_y]
      rw [hs0] at *
      linarith

theorem placeImg_bounds (st : St) (e : LC × ℚ × ℚ) (hw : 0 < e.2.1) (hh : 0 < e.2.2)
    (hup : st.y ≤ PAGE_HEIGHT - MARGIN_TOP) :
    (∀ ev ∈ (placeImg st e).2, evInBounds ev) ∧
      (placeImg st e).1.y ≤ PAGE_HEIGHT - MARGIN_TOP := by
  have hb0 := BODY_LINE_HEIGHT_val
  have hs0 : (0 : ℚ) ≤ imgScale e.2.1 e.2.2 := by
    refine le_min (div_nonneg ?_ (le_of_lt hw)) (le_min (div_nonneg ?_ (le_of_lt hh)) ?_)
    · rw [TEXT_WIDTH_val]; norm_num
    · rw [PAGE_HEIGHT_val]; norm_num
    · norm_num
  have hhle : e.2.2 * imgScale e.2.1 e.2.2 ≤ PAGE_HEIGHT * (2 / 5) := by
    calc e.2.2 * imgScale e.2.1 e.2.2 ≤ e.2.2 * ((PAGE_HEIGHT * (2 / 5)) / e.2.2) :=
          mul_le_mul_of_nonneg_left
            (le_trans (min_le_right _ _) (min_le_left _ _)) (le_of_lt hh)
      _ = PAGE_HEIGHT * (2 / 5) := by field_simp; ring
  have hfrac : PAGE_HEIGHT * (2 / 5) = 42768 / 127 := by rw [PAGE_HEIGHT_val]; norm_num
  rw [hfrac] at hhle
  have hh0 : 0 ≤ e.2.2 * imgScale e.2.1 e.2.2 := mul_nonneg (le_of_lt hh) hs0
  simp only [placeImg]
  by_cases hbr : st.y - e.2.2 * imgScale e.2.1 e.2.2 < MARGIN_BOTTOM + 50
  · rw [if_pos hbr]
    have h1 : (newPage st).y = PAGE_HEIGHT - MARGIN_TOP := rfl
    constructor
    · intro ev hev
      rw [List.mem_singleton] at hev
      subst hev
      constructor
      · rw [h1, topY_val, MARGIN_BOTTOM_val, hb0]; linarith
      · rw [h1, hb0]; linarith
    · rw [h1, hb0]
      linarith
  · rw [if_neg hbr]
    have hge : MARGIN_BOTTOM + 50 ≤ st.y - e.2.2 * imgScale e.2.1 e.2.2 :=
      le_of_not_lt hbr
    constructor
    · intro ev hev
      rw [List.mem_singleton] at hev
      subst hev
      constructor
      · rw [hb0]; linarith
      · rw [hb0]; linarith
    · rw [hb0]
      linarith

theorem procLine_bounds (swB swS : LC → ℚ) (pool : List (LC × ℚ × ℚ)) (st : St)
    (raw : LC)
    (hpool : ∀ q ∈ pool, 0 < q.2.1 ∧ 0 < q.2.2)
    (hsub : isSubtitleV2 (pyStrip raw) = true →
      (wrap_text swS TEXT_WIDTH (pyStrip raw)).length ≤ 22)
    (hup : st.y ≤ PAGE_HEIGHT - MARGIN_TOP) :
    (∀ e ∈ (procLine swB swS pool st raw).2, evInBounds e) ∧
      (procLine swB swS pool st raw).1.y ≤ PAGE_HEIGHT - MARGIN_TOP := by
  have hb0 := BODY_LINE_HEIGHT_val
  unfold procLine
  split
  · constructor
    · intro e he
      rw [List.mem_singleton] at he
      subst he
      trivial
    · rw [hb0]
      linarith
  · split
    · split
      · split
        · exact ⟨fun e he => by simp at he, hup⟩
        · rename_i e hf hnc
          rw [find_image] at hf
          have hq := hpool e (List.mem_of_find?_eq_some hf)
          exact placeImg_bounds st e hq.1 hq.2 hup
      · exact ⟨fun e he => by simp at he, hup⟩
    · split
      · rename_i hst
        exact placeSubtitle_bounds swS st _ (hsub hst) hup
      · exact drawBodyLines_bounds _ st hup

theorem procLines_bounds (swB swS : LC → ℚ) (pool : List (LC × ℚ × ℚ)) :
    ∀ (ls : List LC) (st : St),
      (∀ q ∈ pool, 0 < q.2.1 ∧ 0 < q.2.2) →
      (∀ raw ∈ ls, isSubtitleV2 (pyStrip raw) = true →
        (wrap_text swS TEXT_WIDTH (pyStrip raw)).length ≤ 22) →
      st.y ≤ PAGE_HEIGHT - MARGIN_TOP →
      (∀ e ∈ (procLines swB swS pool st ls).2, evInBounds e) ∧
        (procLines swB swS pool st ls).1.y ≤ PAGE_HEIGHT - MARGIN_TOP := by
  intro ls
  induction ls with
  | nil => intro st _ _ hup; exact ⟨fun e he => by simp [procLines] at he, hup⟩
  | cons l ls ih =>
    intro st hpool hsub hup
    have h1 := procLine_bounds swB swS pool st l hpool
      (hsub l (List.mem_cons_self l ls)) hup
    have h2 := ih (procLine swB swS pool st l).1 hpool
      (fun raw hraw => hsub raw (List.mem_cons_of_mem l hraw)) h1.2
    refine ⟨?_, h2.2⟩
    intro e he
    simp only [procLines] at he
    rcases List.mem_append.mp he with h | h
    · exact h1.1 e h
    · exact h2.1 e h

theorem procChapter_bounds (swB swS : LC → ℚ) (pool : List (LC × ℚ × ℚ)) (st : St)
    (c : ℕ × LC)
    (hpool : ∀ q ∈ pool, 0 < q.2.1 ∧ 0 < q.2.2)
    (hsub : ∀ raw ∈ splitNl c.2, isSubtitleV2 (pyStrip raw) = true →
      (wrap_text swS TEXT_WIDTH (pyStrip raw)).length ≤ 22) :
    (∀ e ∈ (procChapter swB swS pool st c).2, evInBounds e) ∧
      (procChapter swB swS pool st c).1.y ≤ PAGE_HEIGHT - MARGIN_TOP := by
  simp only [procChapter]
  have h := procLines_bounds swB swS pool (splitNl c.2) (newPage (newPage st))
    hpool hsub (le_of_eq rfl)
  refine ⟨?_, h.2⟩
  intro e he
  rcases List.mem_cons.mp he with hh | he
  · subst hh; trivial
  rcases List.mem_cons.mp he with hh | he
  · subst hh; trivial
  · exact h.1 e he

theorem procChapters_bounds (swB swS : LC → ℚ) (pool : List (LC × ℚ × ℚ)) :
    ∀ (cs : List (ℕ × LC)) (st : St),
      (∀ q ∈ pool, 0 < q.2.1 ∧ 0 < q.2.2) →
      (∀ c ∈ cs, ∀ raw ∈ splitNl c.2, isSubtitleV2 (pyStrip raw) = true →
        (wrap_text swS TEXT_WIDTH (pyStrip raw)).length ≤ 22) →
      ∀ e ∈ (procChapters swB swS pool st cs).2, evInBounds e := by
  intro cs
  induction cs with
  | nil => intro st _ _ e he; simp [procChapters] at he
  | cons c cs ih =>
    intro st hpool hsub e he
    simp only [procChapters] at he
    rcases List.mem_append.mp he with h | h
    · exact (procChapter_bounds swB swS pool st c hpool
        (hsub c (List.mem_cons_self c cs))).1 e h
    · exact ih _ hpool (fun d hd => hsub d (List.mem_cons_of_mem c hd)) e h

theorem mem_insertCh (c d : ℕ × LC) :
    ∀ l : List (ℕ × LC), d ∈ insertCh c l → d = c ∨ d ∈ l := by
  intro l
  induction l with
  | nil => intro h; simp [insertCh] at h; exact Or.inl h
  | cons x xs ih =>
    intro h
    simp only [insertCh] at h
    split at h
    · rcases List.mem_cons.mp h with h | h
      · exact Or.inl h
      · exact Or.inr h
    · rcases List.mem_cons.mp h with h | h
      · exact Or.inr (h ▸ List.mem_cons_self x xs)
      · rcases ih h with h | h
        · exact Or.inl h
        · exact Or.inr (List.mem_cons_of_mem x h)

theorem mem_sortChapters (c : ℕ × LC) :
    ∀ l : List (ℕ × LC), c ∈ sortChapters l → c ∈ l := by
  intro l
  induction l with
  | nil => intro h; simp [sortChapters] at h
  | cons x xs ih =>
    intro h
    simp only [sortChapters] at h
    rcases mem_insertCh x c _ h with h | h
    · exact h ▸ List.mem_cons_self x xs
    · exact List.mem_cons_of_mem x (ih h)

/-- C7 (amended): immediately after every body-line, subtitle-line and image
placement the cursor stays within `[MARGIN_BOTTOM, PAGE_HEIGHT - MARGIN_TOP]`,
for pools of positive pixel sizes and subtitle blocks wrapping to at most 22
lines — the most a single block can carry without overflowing even a fresh
page, since the subtitle inner loop never breaks per line (the counterexample
shows a 25-line subtitle block violating the bound).  Empty-line spacing
directives are excluded: they decrement the cursor without any page-break
check and can push it below the bottom margin (also in the counterexample). -/
theorem C7_cursor_in_margins (swB swS : LC → ℚ) (chapters : List (ℕ × LC))
    (pool : List (LC × ℚ × ℚ)) (customer : LC) (info : Option (LC × LC))
    (today : LC)
    (hpool : ∀ q ∈ pool, 0 < q.2.1 ∧ 0 < q.2.2)
    (hsub : ∀ c ∈ chapters, ∀ raw ∈ splitNl c.2,
      isSubtitleV2 (pyStrip raw) = true →
      (wrap_text swS TEXT_WIDTH (pyStrip raw)).length ≤ 22) :
    ∀ e ∈ (create_full_pdf swB swS chapters pool customer info today).1,
      evInBounds e := by
  intro e he
  unfold create_full_pdf at he
  simp only [] at he
  rcases List.mem_append.mp he with h | h
  · rcases List.mem_append.mp h with h | h
    · cases e <;> try trivial
      all_goals cases info <;> simp at h
    · rcases List.mem_cons.mp h with h | h
      · subst h; trivial
      · obtain ⟨p, t, y, hrfl⟩ := tocLoop_shape _ _ e h
        subst hrfl; trivial
  · refine procChapters_bounds swB swS pool (sortChapters chapters) _ hpool ?_ e h
    intro c hc
    exact hsub c (mem_sortChapters c chapters hc)

/-- C7 witness: the amended cursor-bounds theorem instantiated on the concrete
scenario-A assembly (empty pool, no subtitle lines). -/
theorem C7_cursor_in_margins_witness :
    (∀ q ∈ ([] : List (LC × ℚ × ℚ)), 0 < q.2.1 ∧ 0 < q.2.2) ∧
    (∀ c ∈ [((1 : ℕ), "제1장 테스트\n본문입니다.".data)], ∀ raw ∈ splitNl c.2,
      isSubtitleV2 (pyStrip raw) = true →
      (wrap_text (fun s => (s.length : ℚ)) TEXT_WIDTH (pyStrip raw)).length ≤ 22) ∧
    (∀ e ∈ (create_full_pdf (fun s => (s.length : ℚ)) (fun s => (s.length : ℚ))
        [(1, "제1장 테스트\n본문입니다.".data)] [] "테스터".data none
        "2026년 01월 01일".data).1, evInBounds e) :=
  ⟨by decide, by decide,
    C7_cursor_in_margins (fun s => (s.length : ℚ)) (fun s => (s.length : ℚ))
      [(1, "제1장 테스트\n본문입니다.".data)] [] "테스터".data none
      "2026년 01월 01일".data (by decide) (by decide)⟩
